import Mathlib

/-!
Shallow embedding of the memo lifecycle and reminder-scheduling core of
`to_do_bot.py`, a Telegram todo bot.  Python classes `Memo` and `MemoList`
become Lean structures; the handler functions `complete`, `remind`, `timed`
and `remove_reminder` become pure functions over explicit state.  Raised
Python `IndexError` and propagated Telegram API errors are modelled with
`Except`; the external collaborators (message editing, the job queue) are
modelled as explicit arguments and explicit pieces of returned state.
-/

namespace ToDoBot

/-- Python exceptions that the modelled code can raise: `IndexError`
raised by `MemoList.remove` / `MemoList.get` / `MemoList.__getitem__`,
and an error raised by a Telegram API call (e.g. `edit_message_text`). -/
inductive PyErr where
  | indexError
  | telegramError
deriving Repr, DecidableEq

/-- Embedding of the Python class `Memo`: `id` is the string form of the
first message id, `messages` the list of message ids displaying the memo,
`text` the memo text. -/
structure Memo where
  id : String
  messages : List Int
  text : String
deriving Repr, DecidableEq

/-- Embedding of `Memo.__init__(message_id, text)`: `id = str(message_id)`,
`messages = [message_id]`. -/
def Memo.init (message_id : Int) (text : String) : Memo :=
  { id := toString message_id, messages := [message_id], text := text }

/-- Embedding of `Memo.update(message_id)`: appends `message_id` to
`messages`. -/
def Memo.update (m : Memo) (message_id : Int) : Memo :=
  { m with messages := m.messages ++ [message_id] }

/-- Embedding of the Python class `MemoList`. -/
structure MemoList where
  memos : List Memo
deriving Repr, DecidableEq

/-- Embedding of `MemoList.add_memo(message_id, text)`: constructs a
`Memo`, appends it,
and returns the new memo's id.  Mutation is modelled by returning the new
list together with the returned id. -/
def MemoList.add_memo (l : MemoList) (message_id : Int) (text : String) :
    MemoList × String :=
  let new_memo := Memo.init message_id text
  ({ memos := l.memos ++ [new_memo] }, new_memo.id)

/-- Helper for `MemoList.remove`: drop the first memo whose `messages`
contains `message_id`, or `none` when no memo matches.  (In the Python
source the loop finds the first matching memo object and
`self.memos.remove(memo)` deletes that very object.) -/
def removeFirst (message_id : Int) : List Memo → Option (List Memo)
  | [] => none
  | m :: rest =>
    if message_id ∈ m.messages then some rest
    else match removeFirst message_id rest with
      | none => none
      | some r => some (m :: r)

/-- Embedding of `MemoList.remove(message_id)`: raises `IndexError` on an
empty list,
otherwise removes the first memo whose `messages` contains `message_id`,
raising `IndexError` when none does. -/
def MemoList.remove (l : MemoList) (message_id : Int) : Except PyErr MemoList :=
  if l.memos.length = 0 then .error .indexError
  else match removeFirst message_id l.memos with
    | none => .error .indexError
    | some r => .ok { memos := r }

/-- Helper for `MemoList.get`: the first memo whose `messages` contains
`message_id`. -/
def findFirst (message_id : Int) : List Memo → Option Memo
  | [] => none
  | m :: rest =>
    if message_id ∈ m.messages then some m else findFirst message_id rest

/-- Embedding of `MemoList.get(message_id)`: returns the first memo whose
`messages`
contains `message_id`; raises `IndexError` when the list is empty or no
memo matches. -/
def MemoList.get (l : MemoList) (message_id : Int) : Except PyErr Memo :=
  if l.memos.length > 0 then
    match findFirst message_id l.memos with
    | some m => .ok m
    | none => .error .indexError
  else .error .indexError

/-- Python list indexing `xs[key]` for `int` keys: a non-negative key
indexes from the front, a negative key `k` means `xs[len(xs) + k]`, and
an out-of-bounds access raises `IndexError`. -/
def pyListIndex (xs : List Memo) (key : Int) : Except PyErr Memo :=
  if 0 ≤ key then
    match xs.get? key.toNat with
    | some m => .ok m
    | none => .error .indexError
  else
    let j : Int := (xs.length : Int) + key
    if 0 ≤ j then
      match xs.get? j.toNat with
      | some m => .ok m
      | none => .error .indexError
    else .error .indexError

/-- Embedding of `MemoList.__getitem__(key)`: raises `IndexError` when
`key >= len(self.memos)`, otherwise returns `self.memos[key]` with Python
list-index semantics (so negative keys index from the end). -/
def MemoList.getitem (l : MemoList) (key : Int) : Except PyErr Memo :=
  if (l.memos.length : Int) ≤ key then .error .indexError
  else pyListIndex l.memos key

/-- Embedding of `remove_reminder(name, context)`: the scheduler's
pending-job queue is
modelled as the list of the names of the scheduled jobs.
`get_jobs_by_name(name)` is the sublist of jobs carrying `name`; if empty,
return `False`; otherwise each `job.schedule_removal()` is modelled by
dropping those jobs from the queue, and the call returns `True`.  The
result is the returned boolean together with the queue afterwards. -/
def remove_reminder (name : String) (jobs : List String) :
    Bool × List String :=
  let current_jobs := jobs.filter (fun j => j = name)
  if current_jobs.isEmpty then (false, jobs)
  else (true, jobs.filter (fun j => j ≠ name))

/-- The `for message in messages: context.bot.edit_message_text(...)` loop
of `complete`.  The external collaborator `edit_message_text` is modelled
by `edit : Int → Bool` (`false` = the API call raises).  Returns the list
of message ids for which an edit was attempted, in order, and whether all
attempted edits succeeded; the loop stops at the first raising call. -/
def editAll (edit : Int → Bool) : List Int → List Int × Bool
  | [] => ([], true)
  | m :: rest =>
    if edit m then
      let r := editAll edit rest
      (m :: r.1, r.2)
    else ([m], false)

/-- Embedding of `complete(update, context)` for triggering message
`message_id`:
resolves the memo via `MemoList.get` (raising `IndexError` when absent),
then edits every message of the memo in a plain loop (an edit failure
raises and aborts), then removes the memo and calls `remove_reminder`
with the memo's id.  Returns the list of attempted edit targets together
with either the raised error (the memo list and job queue unchanged in
that case, since the mutation was never reached) or the new memo list,
the new job queue and `remove_reminder`'s boolean. -/
def complete (l : MemoList) (jobs : List String) (edit : Int → Bool)
    (message_id : Int) :
    List Int × Except PyErr (MemoList × List String × Bool) :=
  match l.get message_id with
  | .error e => ([], .error e)
  | .ok memo =>
    let r := editAll edit memo.messages
    if r.2 then
      match l.remove message_id with
      | .error e => (r.1, .error e)
      | .ok l2 =>
        let c := remove_reminder memo.id jobs
        (r.1, .ok (l2, c.2, c.1))
    else (r.1, .error .telegramError)

/-- Replace the first memo whose `messages` contains `message_id` by its
`update new_id` (the in-place `memo.update(...)` after a `get`). -/
def updateFound (message_id new_id : Int) : List Memo → List Memo
  | [] => []
  | m :: rest =>
    if message_id ∈ m.messages then m.update new_id :: rest
    else m :: updateFound message_id new_id rest

/-- Result of a firing of the `remind` job callback: the texts of the
messages sent by the callback, the error it raised if any, and the memo
list afterwards. -/
structure RemindOut where
  sent : List String
  err : Option PyErr
  memos : MemoList
deriving Repr, DecidableEq

/-- Embedding of `remind(context)`: looks up the memo by the job's stored
originating
message id (`MemoList.get`, which raises `IndexError` when the memo is
gone), sends a message with the memo's text — the transport assigns it
the fresh id `new_message_id` — and appends that id to the memo's
`messages`. -/
def remind (l : MemoList) (job_message_id : Int) (new_message_id : Int) :
    RemindOut :=
  match l.get job_message_id with
  | .error e => ⟨[], some e, l⟩
  | .ok memo =>
    ⟨[memo.text], none, ⟨updateFound job_message_id new_message_id l.memos⟩⟩

/-- Python `int(s)` on a trimmed decimal literal: an optional sign
followed by at least one digit.  Anything else raises `ValueError`,
modelled by `none`. -/
def parseDigits (cs : List Char) : Option Nat :=
  if cs.isEmpty then none
  else cs.foldl
    (fun acc c => acc.bind
      (fun n => if c.isDigit then some (n * 10 + (c.toNat - 48)) else none))
    (some 0)

/-- Embedding of `int(s)` with an optional leading sign. -/
def pyInt (s : String) : Option Int :=
  match s.data with
  | '-' :: rest => (parseDigits rest).map (fun n => -(n : Int))
  | '+' :: rest => (parseDigits rest).map (fun n => (n : Int))
  | cs => (parseDigits cs).map (fun n => (n : Int))

/-- Result of the `timed` handler: the memo list afterwards, the reply
text sent back to the user, and — when a reminder was scheduled — the
job's delay in seconds and its name. -/
structure TimedOut where
  memos : MemoList
  reply : Option String
  job : Option (Int × String)
deriving Repr, DecidableEq

/-- Embedding of `timed(update, context)`: with arguments `args` and a
reply message
assigned id `reply_message_id` by the transport.  Fewer than two
arguments, a non-numeric first argument, and a non-positive delay are
each rejected with a corrective reply, leaving the memo list unchanged
and scheduling nothing.  Otherwise `due = int(args[0]) * 60` seconds, the
remaining arguments joined by spaces become the memo text, a memo is
added for the reply message, and a one-shot job is scheduled with delay
`due` under the name returned by `add_memo`.  The reply-text prefix
interpolates `due/60`, whose exact float rendering is irrelevant here and
elided from the model. -/
def timed (l : MemoList) (args : List String) (reply_message_id : Int) :
    TimedOut :=
  if args.length < 2 then
    ⟨l, some "Комманда введена неверно", none⟩
  else
    match pyInt (args.headD "") with
    | none => ⟨l, some "Комманда введена неверно", none⟩
    | some n =>
      let due : Int := n * 60
      if due ≤ 0 then
        ⟨l, some "Нельзя напомнить о чем-то в прошлом", none⟩
      else
        let text := String.intercalate " " args.tail
        let r := l.add_memo reply_message_id text
        ⟨r.1, some text, some (due, r.2)⟩

/-- The MemoList operations a conversation can interleave: `addM` is
`MemoList.add_memo`, `removeM` is `MemoList.remove` (a raising remove
leaves the list untouched), `updateM i mid` is `memo.update(mid)` on the
memo at position `i` (as `list_memo` and `remind` do after locating a
memo). -/
inductive Op where
  | addM (mid : Int) (t : String)
  | removeM (mid : Int)
  | updateM (i : Nat) (mid : Int)
deriving Repr, DecidableEq

/-- Apply `f` to the element at position `i`, if any. -/
def modifyIdx (f : Memo → Memo) : List Memo → Nat → List Memo
  | [], _ => []
  | x :: xs, 0 => f x :: xs
  | x :: xs, n + 1 => x :: modifyIdx f xs n

/-- One step of an interleaved operation sequence. -/
def applyOp (l : MemoList) : Op → MemoList
  | .addM mid t => (l.add_memo mid t).1
  | .removeM mid =>
    match l.remove mid with
    | .ok l2 => l2
    | .error _ => l
  | .updateM i mid => ⟨modifyIdx (fun m => m.update mid) l.memos i⟩

/-- Run an operation sequence from a starting list. -/
def runOps (l : MemoList) (ops : List Op) : MemoList :=
  ops.foldl applyOp l

/-- Two memos display disjoint sets of messages. -/
def DisjMemo (a b : Memo) : Prop :=
  ∀ m, m ∈ a.messages → m ∉ b.messages

instance (a b : Memo) : Decidable (DisjMemo a b) := by
  unfold DisjMemo; infer_instance

/-- The uniqueness invariant: no message id occurs in two different
memos' display lists. -/
def Unique (l : MemoList) : Prop :=
  l.memos.Pairwise DisjMemo

instance (l : MemoList) : Decidable (Unique l) := by
  unfold Unique; infer_instance

/-- Freshness: `mid` is displayed by no memo of `l` (a fresh
transport-assigned id). -/
def FreshId (l : MemoList) (mid : Int) : Prop :=
  ∀ memo, memo ∈ l.memos → mid ∉ memo.messages

instance (l : MemoList) (mid : Int) : Decidable (FreshId l mid) := by
  unfold FreshId; infer_instance

/-- A run is fresh when every id fed to `add_memo` or `update` is not
displayed by any memo at the moment the operation is applied — which is
how the bot uses them, since the transport assigns a new message id to
every outward message. -/
def FreshRun : MemoList → List Op → Prop
  | _, [] => True
  | l, .addM mid t :: rest =>
    FreshId l mid ∧ FreshRun (applyOp l (.addM mid t)) rest
  | l, .removeM mid :: rest => FreshRun (applyOp l (.removeM mid)) rest
  | l, .updateM i mid :: rest =>
    FreshId l mid ∧ FreshRun (applyOp l (.updateM i mid)) rest

instance freshRunDecidable :
    ∀ (l : MemoList) (ops : List Op), Decidable (FreshRun l ops)
  | _, [] => by unfold FreshRun; infer_instance
  | l, .addM mid t :: rest =>
    have : Decidable (FreshRun (applyOp l (.addM mid t)) rest) :=
      freshRunDecidable _ rest
    by unfold FreshRun; exact instDecidableAnd
  | l, .removeM mid :: rest =>
    have : Decidable (FreshRun (applyOp l (.removeM mid)) rest) :=
      freshRunDecidable _ rest
    by unfold FreshRun; exact this
  | l, .updateM i mid :: rest =>
    have : Decidable (FreshRun (applyOp l (.updateM i mid)) rest) :=
      freshRunDecidable _ rest
    by unfold FreshRun; exact instDecidableAnd

/-! ### Lemmas about the scan helpers -/

theorem findFirst_none_of (mid : Int) :
    ∀ xs : List Memo, (∀ memo ∈ xs, mid ∉ memo.messages) →
      findFirst mid xs = none
  | [], _ => rfl
  | x :: xs, h => by
    unfold findFirst
    rw [if_neg (h x (List.mem_cons_self x xs))]
    exact findFirst_none_of mid xs (fun memo hm => h memo (List.mem_cons_of_mem x hm))

theorem findFirst_app (mid : Int) (x : Memo) (s : List Memo) (hx : mid ∈ x.messages) :
    ∀ p : List Memo, (∀ memo ∈ p, mid ∉ memo.messages) →
      findFirst mid (p ++ x :: s) = some x
  | [], _ => by rw [List.nil_append]; unfold findFirst; rw [if_pos hx]
  | y :: p, h => by
    rw [List.cons_append]
    unfold findFirst
    rw [if_neg (h y (List.mem_cons_self y p))]
    exact findFirst_app mid x s hx p (fun memo hm => h memo (List.mem_cons_of_mem y hm))

theorem removeFirst_none_of (mid : Int) :
    ∀ xs : List Memo, (∀ memo ∈ xs, mid ∉ memo.messages) →
      removeFirst mid xs = none
  | [], _ => rfl
  | x :: xs, h => by
    unfold removeFirst
    rw [if_neg (h x (List.mem_cons_self x xs)),
      removeFirst_none_of mid xs (fun memo hm => h memo (List.mem_cons_of_mem x hm))]

theorem removeFirst_app (mid : Int) (x : Memo) (s : List Memo) (hx : mid ∈ x.messages) :
    ∀ p : List Memo, (∀ memo ∈ p, mid ∉ memo.messages) →
      removeFirst mid (p ++ x :: s) = some (p ++ s)
  | [], _ => by
    rw [List.nil_append]
    unfold removeFirst
    rw [if_pos hx, List.nil_append]
  | y :: p, h => by
    rw [List.cons_append]
    unfold removeFirst
    rw [if_neg (h y (List.mem_cons_self y p)),
      removeFirst_app mid x s hx p (fun memo hm => h memo (List.mem_cons_of_mem y hm)),
      List.cons_append]

theorem removeFirst_sublist (mid : Int) :
    ∀ xs r : List Memo, removeFirst mid xs = some r → r.Sublist xs
  | [], r, h => by simp [removeFirst] at h
  | x :: xs, r, h => by
    unfold removeFirst at h
    by_cases hx : mid ∈ x.messages
    · rw [if_pos hx] at h
      cases h
      exact (List.Sublist.refl xs).cons x
    · rw [if_neg hx] at h
      cases hr : removeFirst mid xs with
      | none => rw [hr] at h; cases h
      | some r2 =>
        rw [hr] at h
        cases h
        exact List.Sublist.cons₂ x (removeFirst_sublist mid xs r2 hr)

theorem get_of_no_match (l : MemoList) (mid : Int)
    (h : ∀ memo ∈ l.memos, mid ∉ memo.messages) :
    l.get mid = .error .indexError := by
  unfold MemoList.get
  rw [findFirst_none_of mid l.memos h]
  split <;> rfl

theorem get_first_match (p : List Memo) (x : Memo) (s : List Memo) (mid : Int)
    (hp : ∀ memo ∈ p, mid ∉ memo.messages) (hx : mid ∈ x.messages) :
    (MemoList.mk (p ++ x :: s)).get mid = .ok x := by
  unfold MemoList.get
  rw [if_pos (by simp), findFirst_app mid x s hx p hp]

theorem remove_of_no_match (l : MemoList) (mid : Int)
    (h : ∀ memo ∈ l.memos, mid ∉ memo.messages) :
    l.remove mid = .error .indexError := by
  unfold MemoList.remove
  rw [removeFirst_none_of mid l.memos h]
  split <;> rfl

theorem remove_first_matching (p : List Memo) (x : Memo) (s : List Memo) (mid : Int)
    (hp : ∀ memo ∈ p, mid ∉ memo.messages) (hx : mid ∈ x.messages) :
    (MemoList.mk (p ++ x :: s)).remove mid = .ok ⟨p ++ s⟩ := by
  unfold MemoList.remove
  rw [if_neg (by simp), removeFirst_app mid x s hx p hp]

theorem editAll_all_ok (edit : Int → Bool) :
    ∀ ms : List Int, (∀ i ∈ ms, edit i = true) → editAll edit ms = (ms, true)
  | [], _ => rfl
  | i :: ms, h => by
    unfold editAll
    rw [if_pos (h i (List.mem_cons_self i ms)),
      editAll_all_ok edit ms (fun j hj => h j (List.mem_cons_of_mem i hj))]

theorem editAll_stops (edit : Int → Bool) (b : Int) (c : List Int)
    (hb : edit b = false) :
    ∀ a : List Int, (∀ i ∈ a, edit i = true) →
      editAll edit (a ++ b :: c) = (a ++ [b], false)
  | [], _ => by
    rw [List.nil_append]
    unfold editAll
    rw [if_neg (by rw [hb]; exact Bool.false_ne_true), List.nil_append]
  | i :: a, h => by
    rw [List.cons_append]
    unfold editAll
    rw [if_pos (h i (List.mem_cons_self i a)),
      editAll_stops edit b c hb a (fun j hj => h j (List.mem_cons_of_mem i hj)),
      List.cons_append]

theorem modifyIdx_app (f : Memo → Memo) (x : Memo) (s : List Memo) :
    ∀ p : List Memo, modifyIdx f (p ++ x :: s) p.length = p ++ f x :: s
  | [] => rfl
  | y :: p => by
    rw [List.cons_append, List.length_cons]
    unfold modifyIdx
    rw [modifyIdx_app f x s p, List.cons_append]

/-! ### Preservation of the uniqueness invariant -/

theorem disjMemo_update_right (a x : Memo) (mid : Int)
    (h : DisjMemo a x) (ha : mid ∉ a.messages) : DisjMemo a (x.update mid) := by
  intro m hm
  unfold Memo.update
  simp only [List.mem_append, List.mem_singleton]
  push_neg
  exact ⟨h m hm, fun e => ha (e ▸ hm)⟩

theorem disjMemo_update_left (x b : Memo) (mid : Int)
    (h : DisjMemo x b) (hb : mid ∉ b.messages) : DisjMemo (x.update mid) b := by
  intro m hm
  unfold Memo.update at hm
  rw [List.mem_append, List.mem_singleton] at hm
  cases hm with
  | inl h2 => exact h m h2
  | inr h2 => exact h2 ▸ hb

theorem mem_modifyIdx (f : Memo → Memo) :
    ∀ (xs : List Memo) (i : Nat) (b : Memo), b ∈ modifyIdx f xs i →
      b ∈ xs ∨ ∃ c, c ∈ xs ∧ b = f c
  | [], _, b, h => by simp [modifyIdx] at h
  | x :: xs, 0, b, h => by
    unfold modifyIdx at h
    rw [List.mem_cons] at h
    cases h with
    | inl h2 => exact Or.inr ⟨x, List.mem_cons_self x xs, h2⟩
    | inr h2 => exact Or.inl (List.mem_cons_of_mem x h2)
  | x :: xs, n + 1, b, h => by
    unfold modifyIdx at h
    rw [List.mem_cons] at h
    cases h with
    | inl h2 => exact Or.inl (h2 ▸ List.mem_cons_self x xs)
    | inr h2 =>
      cases mem_modifyIdx f xs n b h2 with
      | inl h3 => exact Or.inl (List.mem_cons_of_mem x h3)
      | inr h3 =>
        obtain ⟨c, hc, he⟩ := h3
        exact Or.inr ⟨c, List.mem_cons_of_mem x hc, he⟩

theorem pairwise_modifyIdx_update (mid : Int) :
    ∀ (xs : List Memo) (i : Nat), xs.Pairwise DisjMemo →
      (∀ memo ∈ xs, mid ∉ memo.messages) →
      (modifyIdx (fun m => m.update mid) xs i).Pairwise DisjMemo
  | [], _, _, _ => List.Pairwise.nil
  | x :: xs, 0, hp, hf => by
    unfold modifyIdx
    rw [List.pairwise_cons] at hp ⊢
    refine ⟨?_, hp.2⟩
    intro b hb
    exact disjMemo_update_left x b mid (hp.1 b hb)
      (hf b (List.mem_cons_of_mem x hb))
  | x :: xs, n + 1, hp, hf => by
    unfold modifyIdx
    rw [List.pairwise_cons] at hp ⊢
    constructor
    · intro b hb
      cases mem_modifyIdx _ xs n b hb with
      | inl h3 => exact hp.1 b h3
      | inr h3 =>
        obtain ⟨c, hc, he⟩ := h3
        subst he
        exact disjMemo_update_right x c mid (hp.1 c hc)
          (hf x (List.mem_cons_self x xs))
    · exact pairwise_modifyIdx_update mid xs n hp.2
        (fun memo hm => hf memo (List.mem_cons_of_mem x hm))

theorem unique_add_memo (l : MemoList) (mid : Int) (t : String)
    (hu : Unique l) (hf : FreshId l mid) : Unique (l.add_memo mid t).1 := by
  unfold MemoList.add_memo Unique
  simp only
  rw [List.pairwise_append]
  refine ⟨hu, List.pairwise_singleton _ _, ?_⟩
  intro a ha b hb m hm
  rw [List.mem_singleton] at hb
  subst hb
  unfold Memo.init
  rw [List.mem_singleton]
  intro he
  exact hf a ha (he ▸ hm)

theorem unique_remove_step (l : MemoList) (mid : Int) (hu : Unique l) :
    Unique (applyOp l (.removeM mid)) := by
  simp only [applyOp]
  cases hr : l.remove mid with
  | error e => exact hu
  | ok l2 =>
    unfold MemoList.remove at hr
    by_cases h0 : l.memos.length = 0
    · rw [if_pos h0] at hr; cases hr
    · rw [if_neg h0] at hr
      cases hrf : removeFirst mid l.memos with
      | none => rw [hrf] at hr; cases hr
      | some r =>
        rw [hrf] at hr
        cases hr
        exact List.Pairwise.sublist (removeFirst_sublist mid l.memos r hrf) hu

theorem unique_runOps : ∀ (ops : List Op) (l : MemoList),
    Unique l → FreshRun l ops → Unique (runOps l ops)
  | [], _, hu, _ => hu
  | .addM mid t :: rest, l, hu, hf =>
    unique_runOps rest (applyOp l (.addM mid t))
      (unique_add_memo l mid t hu hf.1) hf.2
  | .removeM mid :: rest, l, hu, hf =>
    unique_runOps rest (applyOp l (.removeM mid))
      (unique_remove_step l mid hu) hf
  | .updateM i mid :: rest, l, hu, hf =>
    unique_runOps rest (applyOp l (.updateM i mid))
      (pairwise_modifyIdx_update mid l.memos i hu hf.1) hf.2

/-! ### Claim theorems -/

/-- Claim C3, counterexample: the claim quantifies over *all* interleaved
sequences, but `add_memo` never checks that the message id is new, so
adding two memos under the same message id puts that id into two
different memos' display lists at once — uniqueness fails on the
two-step sequence `addM 1 "a"; addM 1 "b"` from the empty list. -/
theorem unique_fails_on_duplicate_add :
    ¬ Unique (runOps ⟨[]⟩ [.addM 1 "a", .addM 1 "b"]) := by decide

/-- Claim C3 (amended): across interleaved `add_memo` / `remove` /
`update` sequences from the empty list, *provided every id handed to
`add_memo` or `update` is fresh* (displayed by no memo at that moment —
which is how the bot uses them, the transport assigning a new id to every
outward message), no message id is ever displayed by two different memos
simultaneously. -/
theorem unique_of_fresh_run (ops : List Op) (h : FreshRun ⟨[]⟩ ops) :
    Unique (runOps ⟨[]⟩ ops) :=
  unique_runOps ops ⟨[]⟩ List.Pairwise.nil h

/-- Witness for C3's amended theorem on a concrete fresh interleaving of
all three operations. -/
theorem unique_of_fresh_run_witness :
    Unique (runOps ⟨[]⟩ [.addM 1 "a", .addM 2 "b", .updateM 0 3, .removeM 2]) :=
  unique_of_fresh_run [.addM 1 "a", .addM 2 "b", .updateM 0 3, .removeM 2]
    (by decide)

theorem filter_name_isEmpty (name : String) (jobs : List String) :
    (jobs.filter (fun j => j = name)).isEmpty = true ↔ name ∉ jobs := by
  rw [List.isEmpty_iff, List.filter_eq_nil_iff]
  constructor
  · intro h hmem
    exact h name hmem (by simp)
  · intro h a ha
    simp only [decide_eq_true_eq]
    intro he
    exact h (he ▸ ha)

/-- Claim C6: `remove_reminder(name)` returns `True` exactly when at
least one job named `name` is in the queue (and drops those jobs from
it); with no such job it returns `False`, raising nothing and leaving
the queue as it was — in particular for memos that never had a reminder,
and on a repeated cancel after a successful one. -/
theorem remove_reminder_cancel (name : String) (jobs : List String) :
    ((remove_reminder name jobs).1 = true ↔ name ∈ jobs) ∧
    (name ∈ jobs →
      remove_reminder name jobs = (true, jobs.filter (fun j => j ≠ name))) ∧
    (name ∉ jobs → remove_reminder name jobs = (false, jobs)) ∧
    (remove_reminder name (jobs.filter (fun j => j ≠ name))).1 = false := by
  have hstep : ∀ js : List String, remove_reminder name js =
      if name ∈ js then (true, js.filter (fun j => j ≠ name))
      else (false, js) := by
    intro js
    unfold remove_reminder
    by_cases h : name ∈ js
    · rw [if_neg (fun he => (filter_name_isEmpty name js).mp he h), if_pos h]
    · rw [if_pos ((filter_name_isEmpty name js).mpr h), if_neg h]
  have hnotmem : name ∉ jobs.filter (fun j => j ≠ name) := by
    intro hc
    have h2 := List.of_mem_filter hc
    simp at h2
  refine ⟨?_, ?_, ?_, ?_⟩
  · rw [hstep]
    by_cases h : name ∈ jobs
    · rw [if_pos h]; simp [h]
    · rw [if_neg h]; simp [h]
  · intro h; rw [hstep, if_pos h]
  · intro h; rw [hstep, if_neg h]
  · rw [hstep, if_neg hnotmem]

/-- Witness for C6 exercising both sides: a queued name is cancelled
with `True` and the queue emptied of it; an absent name yields `False`
and an untouched queue. -/
theorem remove_reminder_cancel_witness :
    remove_reminder "101" ["101"] = (true, []) ∧
    remove_reminder "7" ["101"] = (false, ["101"]) :=
  ⟨by
    have h := (remove_reminder_cancel "101" ["101"]).2.1 (by decide)
    simpa using h,
   (remove_reminder_cancel "7" ["101"]).2.2.1 (by decide)⟩

/-- Claim C7: `MemoList.remove(m)` raises `IndexError` (the `NotFound`
of the spec) when the list is empty or no memo displays `m` — the first
conjunct, whose hypothesis holds vacuously for the empty list — and
otherwise removes exactly the first memo in list order displaying `m`,
leaving every other memo in place. -/
theorem remove_removes_first_match (l : MemoList) (m : Int) :
    ((∀ memo ∈ l.memos, m ∉ memo.messages) →
      l.remove m = .error .indexError) ∧
    (∀ p x s, l.memos = p ++ x :: s → (∀ memo ∈ p, m ∉ memo.messages) →
      m ∈ x.messages → l.remove m = .ok ⟨p ++ s⟩) := by
  constructor
  · exact remove_of_no_match l m
  · intro p x s hd hp hx
    have : l = MemoList.mk (p ++ x :: s) := by cases l; cases hd; rfl
    rw [this]
    exact remove_first_matching p x s m hp hx

/-- Witness for C7: both conjuncts at concrete inputs — removing via the
second memo's id deletes exactly that memo, and an unknown id raises. -/
theorem remove_removes_first_match_witness :
    (MemoList.mk [Memo.init 1 "a", Memo.init 2 "b"]).remove 2 =
      .ok ⟨[Memo.init 1 "a"]⟩ ∧
    (MemoList.mk [Memo.init 1 "a", Memo.init 2 "b"]).remove 7 =
      .error .indexError :=
  ⟨(remove_removes_first_match ⟨[Memo.init 1 "a", Memo.init 2 "b"]⟩ 2).2
      [Memo.init 1 "a"] (Memo.init 2 "b") [] rfl (by decide) (by decide),
   (remove_removes_first_match ⟨[Memo.init 1 "a", Memo.init 2 "b"]⟩ 7).1
      (by decide)⟩

/-- Claim C10: with `n ≥ 1` memos, `__getitem__` only guards
`key >= len(self.memos)`, so a negative key in `[-n, -1]` slips past the
guard and Python list indexing returns the memo at position `n + key`;
only keys below `-n` raise `IndexError`. -/
theorem getitem_negative_key (l : MemoList) (key : Int)
    (h1 : 1 ≤ l.memos.length) :
    (-(l.memos.length : Int) ≤ key → key ≤ -1 →
      ∃ memo, l.memos.get? ((l.memos.length : Int) + key).toNat = some memo ∧
        l.getitem key = .ok memo) ∧
    (key < -(l.memos.length : Int) → l.getitem key = .error .indexError) := by
  constructor
  · intro h2 h3
    have hlen : (1 : Int) ≤ (l.memos.length : Int) := by exact_mod_cast h1
    have hj : ((l.memos.length : Int) + key).toNat < l.memos.length := by omega
    refine ⟨l.memos.get ⟨_, hj⟩, List.get?_eq_get hj, ?_⟩
    unfold MemoList.getitem pyListIndex
    rw [if_neg (by omega), if_neg (by omega)]
    simp only
    rw [if_pos (by omega), List.get?_eq_get hj]
  · intro h2
    have hlen : (1 : Int) ≤ (l.memos.length : Int) := by exact_mod_cast h1
    unfold MemoList.getitem pyListIndex
    rw [if_neg (by omega), if_neg (by omega)]
    simp only
    rw [if_neg (by omega)]

/-- Witness for C10: on a two-memo list, key `-1` returns the last memo
and key `-3` raises. -/
theorem getitem_negative_key_witness :
    (∃ memo,
      (MemoList.mk [Memo.init 1 "a", Memo.init 2 "b"]).memos.get?
        (((MemoList.mk [Memo.init 1 "a", Memo.init 2 "b"]).memos.length : Int) +
          (-1)).toNat = some memo ∧
      (MemoList.mk [Memo.init 1 "a", Memo.init 2 "b"]).getitem (-1) =
        .ok memo) ∧
    (MemoList.mk [Memo.init 1 "a", Memo.init 2 "b"]).getitem (-3) =
      .error .indexError :=
  ⟨(getitem_negative_key ⟨[Memo.init 1 "a", Memo.init 2 "b"]⟩ (-1)
      (by decide)).1 (by decide) (by decide),
   (getitem_negative_key ⟨[Memo.init 1 "a", Memo.init 2 "b"]⟩ (-3)
      (by decide)).2 (by decide)⟩

/-- Claim C4: a timed command with at least two arguments whose first
argument parses as a positive integer `n` adds a memo for the reply
message (its id the string form of the reply message id), converts the
delay to `n * 60` seconds, and schedules a one-shot job whose name is the
id `add_memo` returned — the new memo's id. -/
theorem timed_schedules (l : MemoList) (args : List String) (rid : Int)
    (n : Int) (hlen : 2 ≤ args.length) (hp : pyInt (args.headD "") = some n)
    (hn : 0 < n) :
    (timed l args rid).job = some (n * 60, toString rid) ∧
    (timed l args rid).memos.memos =
      l.memos ++ [Memo.init rid (String.intercalate " " args.tail)] ∧
    (Memo.init rid (String.intercalate " " args.tail)).id = toString rid := by
  unfold timed
  rw [if_neg (by omega), hp]
  simp only
  rw [if_neg (by omega)]
  exact ⟨rfl, rfl, rfl⟩

/-- Witness for C4, the spec scenario: delay argument "5" becomes 300
seconds and the job is named "101", the id of reply message 101. -/
theorem timed_schedules_witness :
    (timed ⟨[]⟩ ["5", "buy", "milk"] 101).job =
      some (5 * 60, toString (101 : Int)) ∧
    (timed ⟨[]⟩ ["5", "buy", "milk"] 101).memos.memos =
      [] ++ [Memo.init 101 (String.intercalate " " ["buy", "milk"])] ∧
    (Memo.init 101 (String.intercalate " " ["buy", "milk"])).id =
      toString (101 : Int) :=
  timed_schedules ⟨[]⟩ ["5", "buy", "milk"] 101 5 (by decide) (by decide)
    (by decide)

/-- Claim C5: a timed command with fewer than two arguments, a
non-numeric first argument, or a non-positive delay is answered with a
corrective reply; the memo list is untouched and no job is scheduled. -/
theorem timed_rejects (l : MemoList) (args : List String) (rid : Int)
    (h : args.length < 2 ∨ pyInt (args.headD "") = none ∨
      ∃ n, pyInt (args.headD "") = some n ∧ n ≤ 0) :
    (timed l args rid).memos = l ∧ (timed l args rid).job = none ∧
    ∃ msg, (timed l args rid).reply = some msg := by
  unfold timed
  rcases h with h | h | ⟨n, hp, hn⟩
  · rw [if_pos h]
    exact ⟨rfl, rfl, _, rfl⟩
  · by_cases h2 : args.length < 2
    · rw [if_pos h2]
      exact ⟨rfl, rfl, _, rfl⟩
    · rw [if_neg h2, h]
      exact ⟨rfl, rfl, _, rfl⟩
  · by_cases h2 : args.length < 2
    · rw [if_pos h2]
      exact ⟨rfl, rfl, _, rfl⟩
    · rw [if_neg h2, hp]
      simp only
      rw [if_pos (by omega)]
      exact ⟨rfl, rfl, _, rfl⟩

/-- Witness for C5, the spec scenarios: a single argument, and a "0"
delay, are both rejected without touching the state. -/
theorem timed_rejects_witness :
    ((timed ⟨[]⟩ ["5"] 101).memos = ⟨[]⟩ ∧ (timed ⟨[]⟩ ["5"] 101).job = none ∧
      ∃ msg, (timed ⟨[]⟩ ["5"] 101).reply = some msg) ∧
    ((timed ⟨[]⟩ ["0", "x"] 101).memos = ⟨[]⟩ ∧
      (timed ⟨[]⟩ ["0", "x"] 101).job = none ∧
      ∃ msg, (timed ⟨[]⟩ ["0", "x"] 101).reply = some msg) :=
  ⟨timed_rejects ⟨[]⟩ ["5"] 101 (Or.inl (by decide)),
   timed_rejects ⟨[]⟩ ["0", "x"] 101 (Or.inr (Or.inr ⟨0, by decide, by decide⟩))⟩

/-- Claim C8, counterexample: the claim omits any freshness condition on
`m`.  If message id 5 was already recorded (via `update`) on an existing
memo, `get 5` right after `add_memo 5 "new"` returns that older memo —
text "old", id "1" — not the newly added one, because the scan returns
the first match in list order. -/
theorem add_then_get_counterexample :
    ((((MemoList.mk [(Memo.init 1 "old").update 5]).add_memo 5 "new").1).get 5 =
      .ok ((Memo.init 1 "old").update 5)) ∧
    ((Memo.init 1 "old").update 5).text ≠ "new" := by
  exact ⟨rfl, by decide⟩

/-- Claim C8 (amended): *provided `m` is displayed by no existing memo*
(the transport hands out fresh ids), `get m` immediately after
`add_memo m t` returns the new memo, whose `text` is `t` and whose `id`
is `str(m)`. -/
theorem add_then_get_fresh (l : MemoList) (m : Int) (t : String)
    (h : ∀ memo ∈ l.memos, m ∉ memo.messages) :
    ((l.add_memo m t).1).get m = .ok (Memo.init m t) ∧
    (Memo.init m t).text = t ∧ (Memo.init m t).id = toString m := by
  refine ⟨?_, rfl, rfl⟩
  have he : (l.add_memo m t).1 = MemoList.mk (l.memos ++ Memo.init m t :: []) :=
    rfl
  rw [he]
  exact get_first_match l.memos (Memo.init m t) [] m h
    (show m ∈ [m] from List.mem_singleton.mpr rfl)

/-- Witness for C8's amended theorem, the spec scenario: memo "buy milk"
added via message 101. -/
theorem add_then_get_fresh_witness :
    (((MemoList.mk []).add_memo 101 "buy milk").1).get 101 =
      .ok (Memo.init 101 "buy milk") ∧
    (Memo.init 101 "buy milk").text = "buy milk" ∧
    (Memo.init 101 "buy milk").id = toString (101 : Int) :=
  add_then_get_fresh ⟨[]⟩ 101 "buy milk" (by decide)

/-- Claim C9, counterexample: the claim omits any freshness condition on
`m2`.  Recording message id 1 on the second memo while the first memo
already displays id 1 makes `get 1` return the *first* memo, not the
updated one. -/
theorem update_then_get_counterexample :
    (MemoList.mk (modifyIdx (fun memo => memo.update 1)
        [Memo.init 1 "a", Memo.init 2 "b"] 1)).get 1 =
      .ok (Memo.init 1 "a") ∧
    Memo.init 1 "a" ≠ (Memo.init 2 "b").update 1 := by
  exact ⟨rfl, by decide⟩

/-- Claim C9 (amended): *provided `m2` is displayed by no memo preceding
the updated one* (guaranteed for fresh transport ids), after
`update m2` on the memo at position `|p|`, `get m2` returns exactly that
updated memo, and its `id` field is untouched by `update` — it still
holds the string form of the first message id the memo was created
with. -/
theorem update_then_get_fresh (p : List Memo) (x : Memo) (s : List Memo)
    (m2 : Int) (hp : ∀ memo ∈ p, m2 ∉ memo.messages) :
    (MemoList.mk (modifyIdx (fun memo => memo.update m2) (p ++ x :: s)
        p.length)).get m2 = .ok (x.update m2) ∧
    (x.update m2).id = x.id := by
  rw [modifyIdx_app]
  refine ⟨?_, rfl⟩
  exact get_first_match p (x.update m2) s m2 hp
    (show m2 ∈ x.messages ++ [m2] from
      List.mem_append.mpr (Or.inr (List.mem_singleton.mpr rfl)))

/-- Witness for C9's amended theorem: fresh id 7 recorded on the second
of two memos. -/
theorem update_then_get_fresh_witness :
    (MemoList.mk (modifyIdx (fun memo => memo.update 7)
        ([Memo.init 1 "a"] ++ Memo.init 2 "b" :: []) 1)).get 7 =
      .ok ((Memo.init 2 "b").update 7) ∧
    ((Memo.init 2 "b").update 7).id = (Memo.init 2 "b").id :=
  update_then_get_fresh [Memo.init 1 "a"] (Memo.init 2 "b") [] 7 (by decide)

/-- Claim C2, counterexample: when the memo is gone, `remind` is *not* a
silent no-op — `MemoList.get` raises `IndexError` (the callback sends
nothing and mutates nothing, but it does crash, since the source has no
defensive guard around the lookup). -/
theorem remind_gone_counterexample :
    (remind ⟨[]⟩ 1 5).err = some .indexError ∧
    (remind ⟨[]⟩ 1 5).err ≠ none := by
  exact ⟨rfl, by decide⟩

/-- Claim C2 (amended): when the originating display message id belongs
to no memo of the referenced list, the firing callback sends no message
and mutates no memo, but it raises `IndexError` from the lookup rather
than returning silently. -/
theorem remind_gone (l : MemoList) (job_message_id new_message_id : Int)
    (h : ∀ memo ∈ l.memos, job_message_id ∉ memo.messages) :
    remind l job_message_id new_message_id = ⟨[], some .indexError, l⟩ := by
  unfold remind
  rw [get_of_no_match l job_message_id h]

/-- Witness for C2's amended theorem: a fire for message 2 against a
list whose only memo displays message 1. -/
theorem remind_gone_witness :
    remind ⟨[Memo.init 1 "a"]⟩ 2 9 =
      ⟨[], some .indexError, ⟨[Memo.init 1 "a"]⟩⟩ :=
  remind_gone ⟨[Memo.init 1 "a"]⟩ 2 9 (by decide)

/-- Claim C1, counterexample: the edit loop has no per-iteration error
handling, so when striking the first display message (id 1) fails, the
second display message (id 2) is never attempted, the memo is not
removed, and no reminder is cancelled — the claim's
"a failure editing one display does not prevent attempting the remaining
ones" is false of the code. -/
theorem complete_counterexample :
    complete ⟨[⟨"1", [1, 2], "t"⟩]⟩ ["1"] (fun i => decide (i ≠ 1)) 1 =
      ([1], .error .telegramError) ∧
    (2 : Int) ∈ [(1 : Int), 2] ∧ (2 : Int) ∉ [(1 : Int)] := by
  exact ⟨rfl, by decide, by decide⟩

/-- Claim C1 (amended): `complete(m)` raises `IndexError` when no memo
displays `m`; otherwise it edits the matched memo's display messages in
order and (a) when every edit succeeds, removes that memo and cancels
the reminder jobs named by its id, while (b) when some edit fails, the
attempts stop at the first failing one, the exception propagates, and
the memo stays in the list with its reminder still scheduled. -/
theorem complete_amended (l : MemoList) (jobs : List String)
    (edit : Int → Bool) (m : Int) :
    ((∀ memo ∈ l.memos, m ∉ memo.messages) →
      complete l jobs edit m = ([], .error .indexError)) ∧
    (∀ p x s, l.memos = p ++ x :: s → (∀ memo ∈ p, m ∉ memo.messages) →
      m ∈ x.messages →
      ((∀ i ∈ x.messages, edit i = true) →
        complete l jobs edit m =
          (x.messages, .ok (⟨p ++ s⟩, (remove_reminder x.id jobs).2,
            (remove_reminder x.id jobs).1))) ∧
      (∀ a b c, x.messages = a ++ b :: c → (∀ i ∈ a, edit i = true) →
        edit b = false →
        complete l jobs edit m = (a ++ [b], .error .telegramError))) := by
  constructor
  · intro h
    unfold complete
    rw [get_of_no_match l m h]
  · intro p x s hd hp hx
    have hl : l = MemoList.mk (p ++ x :: s) := by cases l; cases hd; rfl
    subst hl
    constructor
    · intro hall
      unfold complete
      rw [get_first_match p x s m hp hx]
      simp only
      rw [editAll_all_ok edit x.messages hall]
      simp only [if_pos]
      rw [remove_first_matching p x s m hp hx]
    · intro a b c hmsg ha hb
      unfold complete
      rw [get_first_match p x s m hp hx]
      simp only
      rw [hmsg, editAll_stops edit b c hb a ha,
        if_neg (show ¬ ((a ++ [b], false).2 = true) from Bool.false_ne_true)]

/-- Witness for C1's amended theorem: every edit succeeds, the memo is
removed and its job "1" cancelled. -/
theorem complete_amended_witness :
    complete ⟨[⟨"1", [1, 2], "t"⟩]⟩ ["1"] (fun i => decide (0 < i)) 1 =
      ([1, 2], .ok (⟨[]⟩, (remove_reminder "1" ["1"]).2,
        (remove_reminder "1" ["1"]).1)) :=
  ((complete_amended ⟨[⟨"1", [1, 2], "t"⟩]⟩ ["1"] (fun i => decide (0 < i)) 1).2
    [] ⟨"1", [1, 2], "t"⟩ [] rfl (by decide) (by decide)).1 (by decide)

end ToDoBot
